import Mathlib

/-!
Shallow embedding of the branch-and-price template repository
(`src/problem.py`, `src/branch_and_price.py`, `src/template/column_generation.py`,
`src/cut_stock_example/problem.py`, `src/cut_stock_example/branch_and_price.py`,
`src/cut_stock_example/column_generation.py`), together with theorems checking
the natural-language specification against the code.

Numeric values handled by the external LP/MIP solver are modelled as exact
rationals.  The solver itself (CPLEX via docplex) is outside the repository and
is declared an opaque external service by the spec; its per-call outcomes are
therefore modelled as oracle inputs, while every piece of control flow written
in the repository is translated statement by statement.
-/

/-! ## Nodes of the branch-and-bound tree (class `Node`, src/branch_and_price.py) -/

/-- A node of the branch-and-bound tree: either the root or a child holding a
reference to its parent.  `fixedVar` models the `_fixed_var` attribute, which is
`None` until `add_fixed_var` is called; `α` stands for one `(variable, value)`
pair. -/
inductive BnbNode (α : Type) where
  | root (fixedVar : Option α)
  | child (fixedVar : Option α) (parent : BnbNode α)
  deriving DecidableEq

/-- `Node.get_fixed_vars` (src/branch_and_price.py lines 55-67): at the root,
the empty list when no variable is fixed and the singleton otherwise; at a
child, the node's own `_fixed_var` consed onto the parent's list. -/
def getFixedVars {α : Type} : BnbNode α → List (Option α)
  | BnbNode.root none => []
  | BnbNode.root (some a) => [some a]
  | BnbNode.child f p => f :: getFixedVars p

/-- Depth of a node in the tree; the root has depth 0. -/
def nodeDepth {α : Type} : BnbNode α → ℕ
  | BnbNode.root _ => 0
  | BnbNode.child _ p => nodeDepth p + 1

/-- The `_fixed_var` attribute carried by the root ancestor of a node. -/
def rootFixedVar {α : Type} : BnbNode α → Option α
  | BnbNode.root f => f
  | BnbNode.child _ p => rootFixedVar p

/-- Claim-side description (wording of C7): the fixings in
nearest-ancestor-first order, the node's own fixing first, then its parent's,
and so on; the root, which the claim says carries no fixing, contributes
nothing. -/
def nearestFirstFixings {α : Type} : BnbNode α → List (Option α)
  | BnbNode.root _ => []
  | BnbNode.child f p => f :: nearestFirstFixings p

/-- A concrete three-node chain used to instantiate C7. -/
def demoNode : BnbNode (ℕ × ℕ) :=
  BnbNode.child (some (2, 1)) (BnbNode.child (some (1, 0)) (BnbNode.root none))

/-! ## Problem construction (src/problem.py and src/cut_stock_example/problem.py) -/

/-- The state of a constructed base `Problem`: only the `sense` attribute is
set by `Problem.__init__`. -/
structure ProblemT where
  sense : String
  deriving DecidableEq, Repr

/-- Body of `Problem.__init__` (src/problem.py lines 15-22) with the assigned
sense value abstracted as a parameter: the constructor stores the sense and
raises `TypeError` when it is not in the list `["max", "min"]`. -/
def problemSenseBody (sense : String) : Except String ProblemT :=
  if ¬ (sense ∈ (["max", "min"] : List String)) then
    Except.error "TypeError: Problem sense is not valid"
  else
    Except.ok ⟨sense⟩

/-- `Problem.__init__` itself: the assigned sense is the literal `"max"`
(src/problem.py line 20), then the membership check runs. -/
def problemInit : Except String ProblemT := problemSenseBody "max"

/-- The state of a constructed `CutStockProblem`
(src/cut_stock_example/problem.py lines 10-24). -/
structure CutStockProblemT where
  roll_width : ℤ
  num_items : ℕ
  size : List ℤ
  demand : List ℤ
  sense : String
  deriving DecidableEq, Repr

/-- `CutStockProblem.__init__` (src/cut_stock_example/problem.py lines 10-24):
asserts `len(size) == len(demand)` and `roll_width >= size.max()` (numpy raises
on `max` of an empty array), then stores the fields; `sense` is set to the
literal `"max"` with no further check. -/
def cutStockProblemInit (roll_width : ℤ) (size demand : List ℤ) :
    Except String CutStockProblemT :=
  if ¬ (size.length = demand.length) then
    Except.error "AssertionError: len(size) == len(demand)"
  else
    match size.max? with
    | none => Except.error "ValueError: max of an empty array"
    | some m =>
      if ¬ (m ≤ roll_width) then
        Except.error "AssertionError: roll_width >= size.max()"
      else
        Except.ok ⟨roll_width, size.length, size, demand, "max"⟩

/-! ## One iteration of `BranchAndPriceSolver.solve` (src/branch_and_price.py) -/

/-- Exceptions the Python interpreter raises in `BranchAndPriceSolver.solve`:
reading `objective_value` of a `None` incumbent (`AttributeError`), and
comparing a `None` node bound against a float (`TypeError`). -/
inductive PyExc where
  | attributeErrorNoneIncumbent
  | typeErrorNoneLess
  deriving DecidableEq, Repr

/-- What the loop body does with the node after the bound check: discard it
(`continue`) or fall through to `_make_children`. -/
inductive NodeStep where
  | pruned
  | branched
  deriving DecidableEq, Repr

/-- Incumbent update of `BranchAndPriceSolver.solve`
(src/branch_and_price.py lines 146-156): when repair produced a solution, adopt
it if no incumbent exists, else replace the incumbent exactly when the
candidate's objective value is strictly greater.  This code never reads
`self.problem.sense`, so the function has no sense parameter.  Solutions are
represented by their `objective_value`. -/
def updateIncumbent (incumbent : Option ℚ) (repaired : Option ℚ) : Option ℚ :=
  match repaired with
  | none => incumbent
  | some r =>
    match incumbent with
    | none => some r
    | some i => if r > i then some r else incumbent

/-- Bound check of `BranchAndPriceSolver.solve` (src/branch_and_price.py lines
158-168), with Python's evaluation order: the comparison first reads
`self._incumbent_solution.objective_value`, raising `AttributeError` when the
incumbent is `None`; with an incumbent present, `node_bound <`/`>` a float
raises `TypeError` when `node_bound` is `None`; otherwise the node is pruned
exactly when the bound fails against the incumbent in the direction given by
`sense`. -/
def pruneOrBranch (sense : String) (incumbent : Option ℚ) (bound : Option ℚ) :
    Except PyExc NodeStep :=
  match incumbent with
  | none => Except.error PyExc.attributeErrorNoneIncumbent
  | some iv =>
    match bound with
    | none => Except.error PyExc.typeErrorNoneLess
    | some b =>
      if (b < iv ∧ sense = "max") ∨ (b > iv ∧ sense = "min") then
        Except.ok NodeStep.pruned
      else
        Except.ok NodeStep.branched

/-- One pass of the `while` body of `BranchAndPriceSolver.solve`
(src/branch_and_price.py lines 135-168) after the node has been solved:
attempt the incumbent update with the repaired solution, then run the bound
check.  Returns the new incumbent and whether the node is pruned or branched,
or the exception the pass raises. -/
def processNode (sense : String) (incumbent : Option ℚ) (bound : Option ℚ)
    (repaired : Option ℚ) : Except PyExc (Option ℚ × NodeStep) :=
  let inc2 := updateIncumbent incumbent repaired
  (pruneOrBranch sense inc2 bound).map (fun a => (inc2, a))

/-- Default `BranchAndPriceSolver._heuristic_repair`
(src/branch_and_price.py lines 195-201): returns `None` for every partial
solution. -/
def defaultHeuristicRepair (partialSolution : ℚ) : Option ℚ := none

/-- First pass of the `while` loop of `BranchAndPriceSolver.solve` under the
default policies: the constructor sets `_incumbent_solution = None`
(src/branch_and_price.py line 123), the root node is pushed (line 132) so the
body runs at least once, and `_heuristic_repair` is the default. -/
def bnpSolveFirstIteration (sense : String) (rootBound : Option ℚ)
    (rootPartial : ℚ) : Except PyExc (Option ℚ × NodeStep) :=
  processNode sense none rootBound (defaultHeuristicRepair rootPartial)

/-! ## Column generation (src/template/column_generation.py and
src/cut_stock_example/column_generation.py) -/

/-- `ColumnGenerationSolver.MAX_ITERATION`, identical in both files. -/
def MAX_ITERATION : ℕ := 250

/-- The tolerance literal `1e-6` appearing in the stopping criterion of both
files, as an exact rational. -/
def CG_EPS : ℚ := 1 / 1000000

/-- Stopping criterion of both column-generation loops
(src/template/column_generation.py lines 147-149 and
src/cut_stock_example/column_generation.py lines 212-214), applied to the
difference `sp_objval - reduced_cost`:
`(diff <= 1e-6 and sense == "max") or (diff >= 1e-6 and sense == "min")`. -/
def stopTest (sense : String) (diff : ℚ) : Bool :=
  decide ((diff ≤ CG_EPS ∧ sense = "max") ∨ (CG_EPS ≤ diff ∧ sense = "min"))

/-- Claim-side stopping criterion (wording of C4): within `1e-6` of the
non-improving side, `diff <= 1e-6` for a max-sense problem and `diff >= -1e-6`
for a min-sense problem. -/
def stopTestClaimed (sense : String) (diff : ℚ) : Bool :=
  decide ((diff ≤ CG_EPS ∧ sense = "max") ∨ (-CG_EPS ≤ diff ∧ sense = "min"))

/-- Oracle giving the outcome of each opaque external-solver call during one
`ColumnGenerationSolver.solve`, indexed by the 0-based loop pass: whether
`rmp.is_feasible()` holds after the pass's `rmp.solve()`; the scalar
`rmp.get_reduced_cost()`; the two components of the pair returned by
`sp.solve(dual_values)` — per the `SubProblem.solve` docstring the first is the
objective value and the second the column (the column is modelled as a single
rational, since only its identity matters here); and `rmp.get_objective_value()`
and `rmp.get_solution()` after the pass. -/
structure CGOracle where
  feasible : ℕ → Bool
  reducedCost : ℕ → ℚ
  spObjVal : ℕ → ℚ
  spColumn : ℕ → ℚ
  rmpObj : ℕ → ℚ
  rmpSol : ℕ → ℚ

/-- Possible Python return values of the template
`ColumnGenerationSolver.solve` (src/template/column_generation.py lines
126-151): the pair `(None, None)`, the pair
`(rmp.get_objective_value(), rmp.get_solution())`, or the implicit bare `None`
when the loop exhausts `MAX_ITERATION`. -/
inductive TemplateCGResult where
  | infeasiblePair
  | converged (obj : ℚ) (sol : ℚ)
  | capNone
  deriving DecidableEq, Repr

/-- Possible Python return values of the cutting-stock
`ColumnGenerationSolver.solve` (src/cut_stock_example/column_generation.py
lines 187-217): the pair `(None, None)`, or the bare `rmp.get_solution()`
value (returned both after `break` and after the iteration cap). -/
inductive CutStockCGResult where
  | infeasiblePair
  | solutionOnly (sol : ℚ)
  deriving DecidableEq, Repr

/-- Observable outcome of one `ColumnGenerationSolver.solve` call: the returned
value, how often `_add_fixed_vars`/`_add_branch_constraints` ran (always once,
at entry), how often `_remove_fixed_vars`/`_remove_branch_constraints` ran
before returning, and the values passed to `rmp.add_extreme_point` in call
order. -/
structure CGRun (R : Type) where
  result : R
  addCalls : ℕ
  removeCalls : ℕ
  appended : List ℚ
  deriving DecidableEq, Repr

/-- Loop of the template `ColumnGenerationSolver.solve`
(src/template/column_generation.py lines 128-151), as a function of the pass
index `t` and the remaining passes `fuel`; returns the result, the number of
`_remove_fixed_vars` calls, and the appended extreme points.  Faithful details:
on `not rmp.is_feasible()` it returns `None, None` without removing the
fixings; `ep, sp_objval = self.sp.solve(dual_values)` binds `ep` to the FIRST
component of the subproblem's `(objective, column)` pair and `sp_objval` to the
SECOND, so `rmp.add_extreme_point(ep)` receives the objective component and the
stopping criterion is applied to the column component; on convergence it
returns without removing the fixings; only when the loop exhausts its passes
does `_remove_fixed_vars()` run, after which the function ends with no `return`
statement (Python yields `None`). -/
def templateLoop (o : CGOracle) (sense : String) :
    ℕ → ℕ → List ℚ → TemplateCGResult × ℕ × List ℚ
  | _, 0, app => (TemplateCGResult.capNone, 1, app)
  | t, fuel + 1, app =>
    if o.feasible t = false then (TemplateCGResult.infeasiblePair, 0, app)
    else if stopTest sense (o.spColumn t - o.reducedCost t) then
      (TemplateCGResult.converged (o.rmpObj t) (o.rmpSol t), 0, app ++ [o.spObjVal t])
    else
      templateLoop o sense (t + 1) fuel (app ++ [o.spObjVal t])

/-- Template `ColumnGenerationSolver.solve(fixings)`: `_add_fixed_vars` runs
once at entry, then the loop runs for at most `MAX_ITERATION` passes. -/
def templateCGSolve (o : CGOracle) (sense : String) : CGRun TemplateCGResult :=
  match templateLoop o sense 0 MAX_ITERATION [] with
  | (r, rm, app) => ⟨r, 1, rm, app⟩

/-- Loop of the cutting-stock `ColumnGenerationSolver.solve`
(src/cut_stock_example/column_generation.py lines 192-217).  Faithful details:
on `not rmp.is_feasible()` it removes the branch constraints and returns
`None, None`; `sp_objval, ep = self.sp.solve(dual_values)` binds the pair in
the documented order, so the column is appended and the objective is tested;
`break` on the stopping criterion and the iteration cap both fall through to
`_remove_branch_constraints()` followed by `return self.rmp.get_solution()`
(the solution of the most recent `rmp.solve()`, i.e. of pass `t` after a break
and of the final pass after the cap). -/
def cutStockLoop (o : CGOracle) (sense : String) :
    ℕ → ℕ → List ℚ → CutStockCGResult × ℕ × List ℚ
  | t, 0, app => (CutStockCGResult.solutionOnly (o.rmpSol (t - 1)), 1, app)
  | t, fuel + 1, app =>
    if o.feasible t = false then (CutStockCGResult.infeasiblePair, 1, app)
    else if stopTest sense (o.spObjVal t - o.reducedCost t) then
      (CutStockCGResult.solutionOnly (o.rmpSol t), 1, app ++ [o.spColumn t])
    else
      cutStockLoop o sense (t + 1) fuel (app ++ [o.spColumn t])

/-- Cutting-stock `ColumnGenerationSolver.solve(fixings)`:
`_add_branch_constraints` runs once at entry, then the loop runs for at most
`MAX_ITERATION` passes. -/
def cutStockCGSolve (o : CGOracle) (sense : String) : CGRun CutStockCGResult :=
  match cutStockLoop o sense 0 MAX_ITERATION [] with
  | (r, rm, app) => ⟨r, 1, rm, app⟩

/-- Cutting-stock `SubProblem.solve` return shape
(src/cut_stock_example/column_generation.py lines 61-69): the CPLEX solve
outcome is abstracted as `none` (infeasible) or `some (objective, values)`;
the method returns the pair `(objective_value, column)` on success and
`(None, None)` otherwise. -/
def spSolveCutStock (solveOutcome : Option (ℚ × List ℚ)) :
    Option ℚ × Option (List ℚ) :=
  match solveOutcome with
  | some s => (some s.1, some s.2)
  | none => (none, none)

/-- Oracle whose every RMP solve is infeasible. -/
def oracleAllInfeasible : CGOracle :=
  ⟨fun _ => false, fun _ => 0, fun _ => 0, fun _ => 0, fun _ => 0, fun _ => 0⟩

/-- Oracle with subproblem objective 7 and column 0, reduced cost 0, RMP
objective 5 and RMP solution 9: the objective/column components are distinct so
that which one is consumed where is observable. -/
def oracleSwapDemo : CGOracle :=
  ⟨fun _ => true, fun _ => 0, fun _ => 7, fun _ => 0, fun _ => 5, fun _ => 9⟩

/-- Oracle with subproblem objective 0 and column 3, reduced cost 0, RMP
objective 5 and RMP solution 9: the documented stopping difference is 0, so a
correctly wired loop stops on its first pass. -/
def oracleConvergeNow : CGOracle :=
  ⟨fun _ => true, fun _ => 0, fun _ => 0, fun _ => 3, fun _ => 5, fun _ => 9⟩

/-- Oracle that is always feasible with both subproblem components equal to 1
and reduced cost 0: the stopping difference is 1 on every pass, so a max-sense
loop never stops; `rmpSol t = t` identifies which pass a returned solution came
from. -/
def oracleNeverStop : CGOracle :=
  ⟨fun _ => true, fun _ => 0, fun _ => 1, fun _ => 1, fun _ => 0, fun t => (t : ℚ)⟩

/-- Oracle that is always feasible with both subproblem components equal to the
reduced cost (difference 0 on every pass); `rmpSol t = t` identifies which pass
a returned solution came from. -/
def oracleZeroDiff : CGOracle :=
  ⟨fun _ => true, fun _ => 0, fun _ => 0, fun _ => 0, fun _ => 0, fun t => (t : ℚ)⟩

/-! ## Greedy heuristic packing (`CutStockProblem.get_heuristic_solution`,
src/cut_stock_example/problem.py lines 36-54) -/

/-- Indexing a numpy array, totalised with default 0 (all the code's accesses
are in range). -/
def getI : List ℤ → ℕ → ℤ
  | [], _ => 0
  | a :: _, 0 => a
  | _ :: t, i + 1 => getI t i

/-- `np.zeros(self.num_items)` as an integer row. -/
def zerosRow (n : ℕ) : List ℤ := List.replicate n 0

/-- `x.dot(self.size)`: the dot product of a row with the size vector. -/
def dotProd : List ℤ → List ℤ → ℤ
  | a :: as, b :: bs => a * b + dotProd as bs
  | _, _ => 0

/-- `x[-1][i] += 1`: increment position `i` of a row. -/
def incAt : List ℤ → ℕ → List ℤ
  | [], _ => []
  | a :: t, 0 => (a + 1) :: t
  | a :: t, i + 1 => a :: incAt t i

/-- One pass of the inner `while` body of `get_heuristic_solution` for item
`i`: if the current roll cannot also hold one unit of item `i`
(`x[-1].dot(self.size) + self.size[i] > self.roll_width`), open a fresh roll
(`x.append(np.zeros(...))`), then place one unit (`x[-1][i] += 1`).  The rolls
are kept newest-first (the Python list's last element is our head) and
reversed at the end. -/
def packStep (size : List ℤ) (w : ℤ) (i : ℕ) : List (List ℤ) → List (List ℤ)
  | [] => []
  | cur :: older =>
    if dotProd cur size + getI size i > w then
      incAt (zerosRow size.length) i :: cur :: older
    else
      incAt cur i :: older

/-- The inner `while d < self.demand[i]` loop: `d` passes of `packStep`. -/
def packItem (size : List ℤ) (w : ℤ) (i : ℕ) : ℕ → List (List ℤ) → List (List ℤ)
  | 0, rs => rs
  | d + 1, rs => packItem size w i d (packStep size w i rs)

/-- `CutStockProblem.get_heuristic_solution` (src/cut_stock_example/problem.py
lines 36-48): start from one empty roll, pack the items in index order — item
`i` exactly `demand[i]` times (no pass when the demand is not positive, as
with `while d < demand[i]` from `d = 0`) — and return the rolls in creation
order. -/
def heuristicSolution (size demand : List ℤ) (w : ℤ) : List (List ℤ) :=
  ((List.range size.length).foldl
      (fun rs i => packItem size w i (getI demand i).toNat rs)
      [zerosRow size.length]).reverse

/-- `CutStockProblem.get_bins_upper_bound` (src/cut_stock_example/problem.py
lines 50-54): the number of rows of the heuristic solution. -/
def binsUpperBound (size demand : List ℤ) (w : ℤ) : ℕ :=
  (heuristicSolution size demand w).length

/-- Column `j` summed over all rows (`x.sum(axis=0)[j]`). -/
def colSum (rows : List (List ℤ)) (j : ℕ) : ℤ :=
  (rows.map (fun r => getI r j)).sum

/-- Invariant of the reversed roll list during packing: nonempty, every row of
the instance's width, and every row within the roll width. -/
def PackInv (size : List ℤ) (w : ℤ) (rs : List (List ℤ)) : Prop :=
  rs ≠ [] ∧ (∀ r ∈ rs, r.length = size.length) ∧ (∀ r ∈ rs, dotProd r size ≤ w)

/-! ## Theorems: claims C2, C6, C7, C8, C9 -/

/-- Claim C7: for every node whose root ancestor carries no fixing,
`get_fixed_vars()` lists the fixings nearest-ancestor-first (the node's own
fixing first, then its parent's, and so on up to the root), and its length
equals the node's depth; the root yields the empty list. -/
theorem get_fixed_vars_depth_order {α : Type} (n : BnbNode α)
    (hroot : rootFixedVar n = none) :
    getFixedVars n = nearestFirstFixings n ∧
      (getFixedVars n).length = nodeDepth n := by
  induction n with
  | root f =>
    cases f with
    | none => exact ⟨rfl, rfl⟩
    | some a => simp [rootFixedVar] at hroot
  | child f p ih =>
    have hp : rootFixedVar p = none := hroot
    have h2 := ih hp
    refine ⟨?_, ?_⟩
    · simp [getFixedVars, nearestFirstFixings, h2.1]
    · simp [getFixedVars, nodeDepth, h2.2]

/-- Claim C7 witness: the depth-2 chain `demoNode` evaluates as the theorem
states. -/
theorem get_fixed_vars_depth_order_witness :
    getFixedVars demoNode = nearestFirstFixings demoNode ∧
      (getFixedVars demoNode).length = nodeDepth demoNode :=
  get_fixed_vars_depth_order demoNode rfl

/-- Claim C8: the base `Problem` constructor body succeeds exactly when the
assigned sense is `"max"` or `"min"` and raises a `TypeError` otherwise; every
successfully constructed `Problem` and `CutStockProblem` has a valid sense
(both constructors assign the literal `"max"`). -/
theorem problem_sense_validation :
    (∀ s : String,
        (∃ p, problemSenseBody s = Except.ok p) ↔ (s = "max" ∨ s = "min")) ∧
    (∀ p, problemInit = Except.ok p → (p.sense = "max" ∨ p.sense = "min")) ∧
    (∀ (w : ℤ) (sz d : List ℤ) (p : CutStockProblemT),
        cutStockProblemInit w sz d = Except.ok p →
          (p.sense = "max" ∨ p.sense = "min")) := by
  refine ⟨?_, ?_, ?_⟩
  · intro s
    constructor
    · intro ⟨p, hp⟩
      by_contra hs
      push_neg at hs
      have hmem : ¬ (s ∈ (["max", "min"] : List String)) := by
        simp [hs.1, hs.2]
      simp [problemSenseBody, hmem] at hp
    · intro hs
      have hmem : s ∈ (["max", "min"] : List String) := by
        rcases hs with h | h <;> simp [h]
      exact ⟨⟨s⟩, by simp [problemSenseBody, hmem]⟩
  · intro p hp
    have : p = ⟨"max"⟩ := by
      simpa [problemInit, problemSenseBody] using hp.symm
    simp [this]
  · intro w sz d p hp
    unfold cutStockProblemInit at hp
    split at hp
    · exact absurd hp (by simp)
    · split at hp
      · exact absurd hp (by simp)
      · split at hp
        · exact absurd hp (by simp)
        · left
          cases hp
          rfl

/-- Claim C8 witness: `problemSenseBody` succeeds on `"min"`, and the concrete
cutting-stock instance with roll width 100, sizes `[50, 70]` and demands
`[10, 5]` is constructed with a valid sense. -/
theorem problem_sense_validation_witness :
    (∃ p, problemSenseBody "min" = Except.ok p) ∧
      ((⟨100, 2, [50, 70], [10, 5], "max"⟩ : CutStockProblemT).sense = "max" ∨
        (⟨100, 2, [50, 70], [10, 5], "max"⟩ : CutStockProblemT).sense = "min") :=
  ⟨(problem_sense_validation.1 "min").mpr (Or.inr rfl),
    problem_sense_validation.2.2 100 [50, 70] [10, 5] _ rfl⟩

/-- Claim C2 (code bug): the incumbent update of `BranchAndPriceSolver.solve`
never reads `sense` and always replaces on a strictly greater objective value.
In a min-sense problem the worse candidate 7 therefore replaces the incumbent 5
inside a full loop pass, contradicting the claimed direction; the first
repaired candidate does become the incumbent, and a smaller candidate does not
replace it even when sense is `"min"`. -/
theorem incumbent_update_ignores_sense :
    updateIncumbent (some 5) (some 7) = some 7 ∧
    updateIncumbent none (some 3) = some 3 ∧
    updateIncumbent (some 5) (some 4) = some 5 ∧
    processNode "min" (some 5) (some 0) (some 7) =
      Except.ok (some 7, NodeStep.branched) := by
  refine ⟨rfl, rfl, ?_, ?_⟩
  · norm_num [updateIncumbent]
  · norm_num [processNode, updateIncumbent, pruneOrBranch]
    rfl

/-- Claim C6 (code bug): when a popped node's bound is `None`, the generic
solver does not discard it; the repaired-solution branch and the bound
comparison still run, and the comparison raises — `AttributeError` when no
incumbent exists, `TypeError` (comparing `None` with a float) when one does. -/
theorem infeasible_node_not_discarded :
    processNode "max" none none (defaultHeuristicRepair 0) =
      Except.error PyExc.attributeErrorNoneIncumbent ∧
    processNode "max" (some 5) none (defaultHeuristicRepair 0) =
      Except.error PyExc.typeErrorNoneLess ∧
    processNode "min" (some 5) none (defaultHeuristicRepair 0) =
      Except.error PyExc.typeErrorNoneLess :=
  ⟨rfl, rfl, rfl⟩

/-- Claim C9: under the default `_heuristic_repair` (which returns `None`), the
incumbent is never set, so the first pass of the loop — which always runs,
since the root node is pushed before the loop — reads `objective_value` of the
absent incumbent and raises `AttributeError` for every sense, every root bound
(in particular every non-`None` bound) and every partial solution; `solve`
never returns normally. -/
theorem default_policies_crash (sense : String) (rootBound : Option ℚ)
    (rootPartial : ℚ) :
    bnpSolveFirstIteration sense rootBound rootPartial =
      Except.error PyExc.attributeErrorNoneIncumbent := rfl

/-! ## Loop lemmas for the column-generation solvers -/

/-- The stopping criterion fires at difference 0 in a max-sense problem. -/
theorem stopTest_max_zero : stopTest "max" ((0 : ℚ) - 0) = true := by
  have h : (((0 : ℚ) - 0) ≤ CG_EPS ∧ ("max" : String) = "max") ∨
      (CG_EPS ≤ (0 : ℚ) - 0 ∧ ("max" : String) = "min") :=
    Or.inl ⟨by norm_num [CG_EPS], rfl⟩
  simpa [stopTest] using h

/-- The stopping criterion does not fire at difference 1 in a max-sense
problem. -/
theorem stopTest_max_one : stopTest "max" ((1 : ℚ) - 0) = false := by
  norm_num [stopTest, CG_EPS]
  decide

/-- The stopping criterion does not fire at difference 0 in a min-sense
problem (it demands a difference of at least `1e-6`). -/
theorem stopTest_min_zero : stopTest "min" ((0 : ℚ) - 0) = false := by
  norm_num [stopTest, CG_EPS]
  decide

/-- A feasible, converging pass makes the template loop return the RMP values
of that pass without any `_remove_fixed_vars` call. -/
theorem templateLoop_stop (o : CGOracle) (sense : String) (t f : ℕ)
    (app : List ℚ) (h1 : o.feasible t = true)
    (h2 : stopTest sense (o.spColumn t - o.reducedCost t) = true) :
    templateLoop o sense t (f + 1) app =
      (TemplateCGResult.converged (o.rmpObj t) (o.rmpSol t), 0,
        app ++ [o.spObjVal t]) := by
  simp [templateLoop, h1, h2]

/-- A feasible, non-converging pass makes the cutting-stock loop continue with
one more appended column. -/
theorem cutStockLoop_continue (o : CGOracle) (sense : String) (t f : ℕ)
    (app : List ℚ) (h1 : o.feasible t = true)
    (h2 : stopTest sense (o.spObjVal t - o.reducedCost t) = false) :
    cutStockLoop o sense t (f + 1) app =
      cutStockLoop o sense (t + 1) f (app ++ [o.spColumn t]) := by
  simp [cutStockLoop, h1, h2]

/-- A feasible, converging pass makes the cutting-stock loop break, remove the
branch constraints and return the pass's RMP solution. -/
theorem cutStockLoop_stop (o : CGOracle) (sense : String) (t f : ℕ)
    (app : List ℚ) (h1 : o.feasible t = true)
    (h2 : stopTest sense (o.spObjVal t - o.reducedCost t) = true) :
    cutStockLoop o sense t (f + 1) app =
      (CutStockCGResult.solutionOnly (o.rmpSol t), 1, app ++ [o.spColumn t]) := by
  simp [cutStockLoop, h1, h2]

/-- When every pass in range is feasible and fails the stopping criterion (the
template applies it to the column component), the template loop exhausts its
fuel, ends as the implicit `None`, and removes the fixings once. -/
theorem templateLoop_cap (o : CGOracle) (sense : String) :
    ∀ (fuel t : ℕ) (app : List ℚ),
      (∀ s, s < fuel → o.feasible (t + s) = true ∧
        stopTest sense (o.spColumn (t + s) - o.reducedCost (t + s)) = false) →
      (templateLoop o sense t fuel app).1 = TemplateCGResult.capNone ∧
        (templateLoop o sense t fuel app).2.1 = 1 := by
  intro fuel
  induction fuel with
  | zero => intro t app _; exact ⟨rfl, rfl⟩
  | succ f ih =>
    intro t app h
    have h0 := h 0 (Nat.succ_pos f)
    rw [Nat.add_zero] at h0
    have hrec := ih (t + 1) (app ++ [o.spObjVal t]) (fun s hs => by
      have hsh := h (s + 1) (Nat.succ_lt_succ hs)
      have e : t + (s + 1) = t + 1 + s := by omega
      rw [e] at hsh
      exact hsh)
    simp only [templateLoop, h0.1, h0.2]
    simpa using hrec

/-- Every control path of the cutting-stock loop removes the branch
constraints exactly once. -/
theorem cutStockLoop_removeCalls (o : CGOracle) (sense : String) :
    ∀ (fuel t : ℕ) (app : List ℚ), (cutStockLoop o sense t fuel app).2.1 = 1 := by
  intro fuel
  induction fuel with
  | zero => intro t app; rfl
  | succ f ih =>
    intro t app
    simp only [cutStockLoop]
    split
    · rfl
    · split
      · rfl
      · exact ih (t + 1) (app ++ [o.spColumn t])

/-- When every pass in range is feasible and fails the stopping criterion, the
cutting-stock loop exhausts its fuel, returns the RMP solution of its final
pass, and removes the branch constraints once. -/
theorem cutStockLoop_cap (o : CGOracle) (sense : String) :
    ∀ (fuel t : ℕ) (app : List ℚ),
      (∀ s, s < fuel → o.feasible (t + s) = true ∧
        stopTest sense (o.spObjVal (t + s) - o.reducedCost (t + s)) = false) →
      (cutStockLoop o sense t fuel app).1 =
          CutStockCGResult.solutionOnly (o.rmpSol (t + fuel - 1)) ∧
        (cutStockLoop o sense t fuel app).2.1 = 1 := by
  intro fuel
  induction fuel with
  | zero => intro t app _; exact ⟨rfl, rfl⟩
  | succ f ih =>
    intro t app h
    have h0 := h 0 (Nat.succ_pos f)
    rw [Nat.add_zero] at h0
    have hrec := ih (t + 1) (app ++ [o.spColumn t]) (fun s hs => by
      have hsh := h (s + 1) (Nat.succ_lt_succ hs)
      have e : t + (s + 1) = t + 1 + s := by omega
      rw [e] at hsh
      exact hsh)
    have e2 : t + 1 + f - 1 = t + (f + 1) - 1 := by omega
    rw [e2] at hrec
    rw [cutStockLoop_continue o sense t f app h0.1 h0.2]
    exact hrec

/-- The cutting-stock loop stops at the first pass `k` whose stopping
criterion holds (all passes up to `k` being feasible): it returns the RMP
solution of pass `k`, removes the branch constraints once, and has appended
exactly `k + 1` extreme points. -/
theorem cutStockLoop_first_stop (o : CGOracle) (sense : String) :
    ∀ (k fuel t : ℕ) (app : List ℚ), k < fuel →
      (∀ s, s ≤ k → o.feasible (t + s) = true) →
      (∀ s, s < k →
        stopTest sense (o.spObjVal (t + s) - o.reducedCost (t + s)) = false) →
      stopTest sense (o.spObjVal (t + k) - o.reducedCost (t + k)) = true →
      (cutStockLoop o sense t fuel app).1 =
          CutStockCGResult.solutionOnly (o.rmpSol (t + k)) ∧
        (cutStockLoop o sense t fuel app).2.2.length = app.length + (k + 1) := by
  intro k
  induction k with
  | zero =>
    intro fuel t app hk hf _ hstop
    match fuel, hk with
    | f + 1, _ =>
      have h0 := hf 0 (Nat.le_refl 0)
      rw [Nat.add_zero] at h0
      rw [Nat.add_zero] at hstop
      rw [cutStockLoop_stop o sense t f app h0 hstop]
      simp [Nat.add_zero]
  | succ m ih =>
    intro fuel t app hk hf hns hstop
    match fuel, hk with
    | f + 1, hk =>
      have h0 := hf 0 (Nat.zero_le (m + 1))
      rw [Nat.add_zero] at h0
      have hns0 := hns 0 (Nat.succ_pos m)
      rw [Nat.add_zero] at hns0
      have hrec := ih f (t + 1) (app ++ [o.spColumn t])
        (Nat.lt_of_succ_lt_succ hk)
        (fun s hs => by
          have hsh := hf (s + 1) (Nat.succ_le_succ hs)
          have e : t + (s + 1) = t + 1 + s := by omega
          rw [e] at hsh
          exact hsh)
        (fun s hs => by
          have hsh := hns (s + 1) (Nat.succ_lt_succ hs)
          have e : t + (s + 1) = t + 1 + s := by omega
          rw [e] at hsh
          exact hsh)
        (by
          have e : t + (m + 1) = t + 1 + m := by omega
          rw [e] at hstop
          exact hstop)
      have e2 : t + 1 + m = t + (m + 1) := by omega
      rw [e2] at hrec
      rw [cutStockLoop_continue o sense t f app h0 hns0]
      refine ⟨hrec.1, ?_⟩
      have := hrec.2
      simp only [List.length_append, List.length_cons, List.length_nil] at this ⊢
      omega

/-! ## Theorems: claims C1, C3, C4, C5 -/

/-- Claim C1 (code bug): the template `ColumnGenerationSolver.solve` applies
the fixings once at entry but retracts them only on the iteration-cap path: on
RMP infeasibility it returns `(None, None)` with zero `_remove_fixed_vars`
calls, and on convergence it likewise returns with zero removal calls.  The
cutting-stock version retracts exactly once on every control path, as the
claim (and the spec invariant) demands. -/
theorem fixings_retraction_unbalanced :
    (templateCGSolve oracleAllInfeasible "max").addCalls = 1 ∧
    (templateCGSolve oracleAllInfeasible "max").removeCalls = 0 ∧
    (templateCGSolve oracleAllInfeasible "max").result =
      TemplateCGResult.infeasiblePair ∧
    (templateCGSolve oracleSwapDemo "max").removeCalls = 0 ∧
    (templateCGSolve oracleSwapDemo "max").result =
      TemplateCGResult.converged 5 9 ∧
    (∀ (o : CGOracle) (sense : String),
      (cutStockCGSolve o sense).removeCalls = 1) := by
  have hloop : templateLoop oracleSwapDemo "max" 0 MAX_ITERATION [] =
      (TemplateCGResult.converged 5 9, 0, [7]) := by
    have e : MAX_ITERATION = 249 + 1 := rfl
    rw [e, templateLoop_stop oracleSwapDemo "max" 0 249 [] rfl stopTest_max_zero]
    rfl
  refine ⟨rfl, rfl, rfl, ?_, ?_, ?_⟩
  · simp [templateCGSolve, hloop]
  · simp [templateCGSolve, hloop]
  · intro o sense
    have h := cutStockLoop_removeCalls o sense MAX_ITERATION 0 []
    rcases e : cutStockLoop o sense 0 MAX_ITERATION [] with ⟨r, rm, app⟩
    rw [e] at h
    simp only at h
    simp [cutStockCGSolve, e, h]

/-- Claim C3 counterexample: with every pass feasible and no pass converging,
the template solver exhausts `MAX_ITERATION` and returns the implicit Python
`None` — not the best RMP values found so far and not any flagged value. -/
theorem template_cap_returns_none :
    (templateCGSolve oracleNeverStop "max").result = TemplateCGResult.capNone ∧
    (templateCGSolve oracleNeverStop "max").removeCalls = 1 := by
  have h := templateLoop_cap oracleNeverStop "max" MAX_ITERATION 0 []
    (fun s _ => ⟨rfl, stopTest_max_one⟩)
  rcases e : templateLoop oracleNeverStop "max" 0 MAX_ITERATION [] with ⟨r, rm, app⟩
  rw [e] at h
  simp only at h
  constructor
  · simp [templateCGSolve, e, h.1]
  · simp [templateCGSolve, e, h.2]

/-- Claim C3 as amended: on hitting the iteration cap without convergence,
both solvers retract the restriction exactly once; the template version then
returns the bare `None`, while the cutting-stock version returns only the RMP
fractional solution of its final pass — neither returns a bound value and
neither carries a non-certified-optimal flag. -/
theorem iteration_cap_behavior :
    (∀ (o : CGOracle) (sense : String),
      (∀ s, s < MAX_ITERATION → o.feasible s = true ∧
        stopTest sense (o.spColumn s - o.reducedCost s) = false) →
      (templateCGSolve o sense).result = TemplateCGResult.capNone ∧
        (templateCGSolve o sense).removeCalls = 1) ∧
    (∀ (o : CGOracle) (sense : String),
      (∀ s, s < MAX_ITERATION → o.feasible s = true ∧
        stopTest sense (o.spObjVal s - o.reducedCost s) = false) →
      (cutStockCGSolve o sense).result =
          CutStockCGResult.solutionOnly (o.rmpSol (MAX_ITERATION - 1)) ∧
        (cutStockCGSolve o sense).removeCalls = 1) := by
  constructor
  · intro o sense h
    have hcap := templateLoop_cap o sense MAX_ITERATION 0 []
      (fun s hs => by
        have := h s hs
        rwa [Nat.zero_add])
    rcases e : templateLoop o sense 0 MAX_ITERATION [] with ⟨r, rm, app⟩
    rw [e] at hcap
    simp only at hcap
    constructor
    · simp [templateCGSolve, e, hcap.1]
    · simp [templateCGSolve, e, hcap.2]
  · intro o sense h
    have hcap := cutStockLoop_cap o sense MAX_ITERATION 0 []
      (fun s hs => by
        have := h s hs
        rwa [Nat.zero_add])
    rw [Nat.zero_add] at hcap
    rcases e : cutStockLoop o sense 0 MAX_ITERATION [] with ⟨r, rm, app⟩
    rw [e] at hcap
    simp only at hcap
    constructor
    · simp [cutStockCGSolve, e, hcap.1]
    · simp [cutStockCGSolve, e, hcap.2]

/-- Claim C3 witness: the never-converging oracle realises both cap paths. -/
theorem iteration_cap_behavior_witness :
    (templateCGSolve oracleNeverStop "max").removeCalls = 1 ∧
    (cutStockCGSolve oracleNeverStop "max").result =
      CutStockCGResult.solutionOnly (oracleNeverStop.rmpSol (MAX_ITERATION - 1)) :=
  ⟨(iteration_cap_behavior.1 oracleNeverStop "max"
      (fun s _ => ⟨rfl, stopTest_max_one⟩)).2,
    (iteration_cap_behavior.2 oracleNeverStop "max"
      (fun s _ => ⟨rfl, stopTest_max_one⟩)).1⟩

/-- Claim C4 counterexample: at difference exactly 0 in a min-sense problem the
code's stopping criterion does not fire (it demands `diff >= 1e-6`), while the
claim's criterion (`diff >= -1e-6`) does; consequently the cutting-stock loop
with every pass at difference 0 runs all 250 passes and returns the RMP
solution of pass 249 instead of stopping at pass 0. -/
theorem min_sense_tolerance_cex :
    stopTest "min" 0 = false ∧
    stopTestClaimed "min" 0 = true ∧
    (cutStockCGSolve oracleZeroDiff "min").result =
      CutStockCGResult.solutionOnly (oracleZeroDiff.rmpSol (MAX_ITERATION - 1)) ∧
    oracleZeroDiff.rmpSol (MAX_ITERATION - 1) = 249 ∧
    oracleZeroDiff.rmpSol 0 = 0 := by
  refine ⟨?_, ?_, ?_, ?_, ?_⟩
  · norm_num [stopTest, CG_EPS]
    decide
  · have h : ((0 : ℚ) ≤ CG_EPS ∧ ("min" : String) = "max") ∨
        (-CG_EPS ≤ (0 : ℚ) ∧ ("min" : String) = "min") :=
      Or.inr ⟨by norm_num [CG_EPS], rfl⟩
    simpa [stopTestClaimed] using h
  · have hcap := cutStockLoop_cap oracleZeroDiff "min" MAX_ITERATION 0 []
      (fun s _ => ⟨rfl, stopTest_min_zero⟩)
    rw [Nat.zero_add] at hcap
    rcases e : cutStockLoop oracleZeroDiff "min" 0 MAX_ITERATION [] with ⟨r, rm, app⟩
    rw [e] at hcap
    simp only at hcap
    simp [cutStockCGSolve, e, hcap.1]
  · show ((249 : ℕ) : ℚ) = 249
    norm_num
  · show ((0 : ℕ) : ℚ) = 0
    norm_num

/-- Claim C4 as amended: the stopping criterion fires exactly when
`sp_objval - reduced_cost` is at most `1e-6` for a max-sense problem and at
least `+1e-6` (not `-1e-6`) for a min-sense problem, with `1e-6` a hard-coded
literal; the cutting-stock loop stops at the first feasible pass `k` whose
criterion holds, returning that pass's RMP solution after appending exactly
`k + 1` columns. -/
theorem convergence_test_first_stop :
    (∀ (sense : String) (d : ℚ), stopTest sense d = true ↔
      ((d ≤ CG_EPS ∧ sense = "max") ∨ (CG_EPS ≤ d ∧ sense = "min"))) ∧
    (∀ (o : CGOracle) (sense : String) (k : ℕ), k < MAX_ITERATION →
      (∀ s, s ≤ k → o.feasible s = true) →
      (∀ s, s < k →
        stopTest sense (o.spObjVal s - o.reducedCost s) = false) →
      stopTest sense (o.spObjVal k - o.reducedCost k) = true →
      (cutStockCGSolve o sense).result =
          CutStockCGResult.solutionOnly (o.rmpSol k) ∧
        (cutStockCGSolve o sense).appended.length = k + 1) := by
  constructor
  · intro sense d
    simp [stopTest]
  · intro o sense k hk hf hns hstop
    have hfs := cutStockLoop_first_stop o sense k MAX_ITERATION 0 [] hk
      (fun s hs => by have := hf s hs; rwa [Nat.zero_add])
      (fun s hs => by have := hns s hs; rwa [Nat.zero_add])
      (by rwa [Nat.zero_add])
    rw [Nat.zero_add] at hfs
    rcases e : cutStockLoop o sense 0 MAX_ITERATION [] with ⟨r, rm, app⟩
    rw [e] at hfs
    simp only at hfs
    constructor
    · simp [cutStockCGSolve, e, hfs.1]
    · have := hfs.2
      simp only [List.length_nil, Nat.zero_add] at this
      simp [cutStockCGSolve, e, this]

/-- Claim C4 witness: with difference 0 on the first pass of a max-sense
problem the loop stops immediately, having appended one column. -/
theorem convergence_test_first_stop_witness :
    stopTest "max" ((0 : ℚ) - 0) = true ∧
    (cutStockCGSolve oracleConvergeNow "max").result =
      CutStockCGResult.solutionOnly (oracleConvergeNow.rmpSol 0) ∧
    (cutStockCGSolve oracleConvergeNow "max").appended.length = 1 :=
  ⟨(convergence_test_first_stop.1 "max" ((0 : ℚ) - 0)).mpr
      (Or.inl ⟨by norm_num [CG_EPS], rfl⟩),
    (convergence_test_first_stop.2 oracleConvergeNow "max" 0 (by decide)
      (fun _ _ => rfl) (fun s hs => absurd hs (Nat.not_lt_zero s))
      stopTest_max_zero).1,
    (convergence_test_first_stop.2 oracleConvergeNow "max" 0 (by decide)
      (fun _ _ => rfl) (fun s hs => absurd hs (Nat.not_lt_zero s))
      stopTest_max_zero).2⟩

/-- Claim C5 (code bug): `SubProblem.solve` returns the pair
`(objective_value, column)` — `(None, None)` when infeasible — and the
cutting-stock loop consumes it in that order (the column 3 is appended, the
objective 0 drives the stopping test).  The template loop, however, unpacks
the pair backwards: with objective 7 and column 0 it appends the objective 7
to the RMP and lets the column 0 satisfy the stopping test, converging on its
first pass even though the objective-minus-reduced-cost difference is 7. -/
theorem subproblem_pair_consumption :
    (∀ (q : ℚ) (xs : List ℚ),
      spSolveCutStock (some (q, xs)) = (some q, some xs)) ∧
    spSolveCutStock none = (none, none) ∧
    templateCGSolve oracleSwapDemo "max" =
      ⟨TemplateCGResult.converged 5 9, 1, 0, [7]⟩ ∧
    cutStockCGSolve oracleConvergeNow "max" =
      ⟨CutStockCGResult.solutionOnly 9, 1, 1, [3]⟩ := by
  have hloopT : templateLoop oracleSwapDemo "max" 0 MAX_ITERATION [] =
      (TemplateCGResult.converged 5 9, 0, [7]) := by
    have e : MAX_ITERATION = 249 + 1 := rfl
    rw [e, templateLoop_stop oracleSwapDemo "max" 0 249 [] rfl stopTest_max_zero]
    rfl
  have hloopC : cutStockLoop oracleConvergeNow "max" 0 MAX_ITERATION [] =
      (CutStockCGResult.solutionOnly 9, 1, [3]) := by
    have e : MAX_ITERATION = 249 + 1 := rfl
    rw [e, cutStockLoop_stop oracleConvergeNow "max" 0 249 [] rfl stopTest_max_zero]
    rfl
  refine ⟨fun _ _ => rfl, rfl, ?_, ?_⟩
  · simp [templateCGSolve, hloopT]
  · simp [cutStockCGSolve, hloopC]

/-! ## Lemmas about the greedy packing heuristic -/

/-- An in-range index of `getI` returns a member of the list. -/
theorem getI_mem : ∀ (l : List ℤ) (i : ℕ), i < l.length → getI l i ∈ l := by
  intro l
  induction l with
  | nil => intro i hi; simp at hi
  | cons a t ih =>
    intro i hi
    cases i with
    | zero => simp [getI]
    | succ m =>
      have hm : m < t.length := by simp at hi; omega
      simp [getI, ih m hm]

/-- `getI` of an entrywise-nonnegative list is nonnegative (the out-of-range
default is 0). -/
theorem getI_nonneg : ∀ (l : List ℤ) (i : ℕ), (∀ a ∈ l, 0 ≤ a) → 0 ≤ getI l i := by
  intro l
  induction l with
  | nil => intro i _; simp [getI]
  | cons a t ih =>
    intro i h
    cases i with
    | zero => exact h a (by simp)
    | succ m => exact ih m (fun b hb => h b (by simp [hb]))

/-- Incrementing preserves the row length. -/
theorem incAt_length : ∀ (r : List ℤ) (i : ℕ), (incAt r i).length = r.length := by
  intro r
  induction r with
  | nil => intro i; rfl
  | cons a t ih =>
    intro i
    cases i with
    | zero => rfl
    | succ m => simp [incAt, ih m]

/-- Entry of an incremented row, at every index. -/
theorem getI_incAt : ∀ (r : List ℤ) (i j : ℕ), i < r.length →
    getI (incAt r i) j = getI r j + (if j = i then 1 else 0) := by
  intro r
  induction r with
  | nil => intro i j hi; simp at hi
  | cons a t ih =>
    intro i j hi
    cases i with
    | zero =>
      cases j with
      | zero => simp [incAt, getI]
      | succ m => simp [incAt, getI]
    | succ k =>
      cases j with
      | zero => simp [incAt, getI]
      | succ m =>
        have hk : k < t.length := by simp at hi; omega
        simp [incAt, getI, ih k m hk]

/-- Entry of the all-zero row. -/
theorem getI_replicate : ∀ (n j : ℕ), getI (List.replicate n 0) j = 0 := by
  intro n
  induction n with
  | zero => intro j; cases j <;> rfl
  | succ m ih =>
    intro j
    cases j with
    | zero => rfl
    | succ k => simpa [List.replicate, getI] using ih k

/-- Entry of `zerosRow`. -/
theorem getI_zerosRow (n j : ℕ) : getI (zerosRow n) j = 0 := getI_replicate n j

/-- The all-zero row dots to 0 against any vector. -/
theorem dotProd_replicate_zero : ∀ (n : ℕ) (s : List ℤ),
    dotProd (List.replicate n 0) s = 0 := by
  intro n
  induction n with
  | zero => intro s; rfl
  | succ m ih =>
    intro s
    cases s with
    | nil => rfl
    | cons b bs => simp [List.replicate, dotProd, ih bs]

/-- `zerosRow` dots to 0 against any vector. -/
theorem dotProd_zerosRow (n : ℕ) (s : List ℤ) : dotProd (zerosRow n) s = 0 :=
  dotProd_replicate_zero n s

/-- Incrementing entry `i` adds the `i`-th coefficient to the dot product. -/
theorem dotProd_incAt : ∀ (r s : List ℤ) (i : ℕ), i < r.length → i < s.length →
    dotProd (incAt r i) s = dotProd r s + getI s i := by
  intro r
  induction r with
  | nil => intro s i hi _; simp at hi
  | cons a t ih =>
    intro s i hi hs
    cases s with
    | nil => simp at hs
    | cons b bs =>
      cases i with
      | zero =>
        simp only [incAt, dotProd, getI]
        ring
      | succ k =>
        have h1 : k < t.length := by simp at hi; omega
        have h2 : k < bs.length := by simp at hs; omega
        simp only [incAt, dotProd, getI, ih bs k h1 h2]
        ring

/-- One packing pass preserves the roll-list invariant, provided item `i` fits
an empty roll (`size[i] <= roll_width`, which the constructor's
`roll_width >= size.max()` assert supplies). -/
theorem packStep_inv (size : List ℤ) (w : ℤ) (i : ℕ)
    (hi : i < size.length) (hsz : getI size i ≤ w) :
    ∀ rs, PackInv size w rs → PackInv size w (packStep size w i rs) := by
  intro rs hrs
  rcases hrs with ⟨hne, hlen, hbound⟩
  cases rs with
  | nil => exact absurd rfl hne
  | cons cur older =>
    by_cases hover : dotProd cur size + getI size i > w
    · refine ⟨by simp [packStep, hover], ?_, ?_⟩
      · intro r hr
        simp only [packStep, if_pos hover, List.mem_cons] at hr
        rcases hr with h | h | h
        · subst h; rw [incAt_length]; simp [zerosRow]
        · rw [h]; exact hlen cur (by simp)
        · exact hlen r (by simp [h])
      · intro r hr
        simp only [packStep, if_pos hover, List.mem_cons] at hr
        rcases hr with h | h | h
        · subst h
          have hlen0 : i < (zerosRow size.length).length := by simp [zerosRow, hi]
          rw [dotProd_incAt _ _ _ hlen0 hi, dotProd_zerosRow]
          simpa using hsz
        · rw [h]; exact hbound cur (by simp)
        · exact hbound r (by simp [h])
    · refine ⟨by simp [packStep, hover], ?_, ?_⟩
      · intro r hr
        simp only [packStep, if_neg hover, List.mem_cons] at hr
        rcases hr with h | h
        · subst h; rw [incAt_length]; exact hlen cur (by simp)
        · exact hlen r (by simp [h])
      · intro r hr
        simp only [packStep, if_neg hover, List.mem_cons] at hr
        rcases hr with h | h
        · subst h
          have hcl : i < cur.length := by rw [hlen cur (by simp)]; exact hi
          rw [dotProd_incAt _ _ _ hcl hi]
          omega
        · exact hbound r (by simp [h])

/-- The inner demand loop preserves the roll-list invariant. -/
theorem packItem_inv (size : List ℤ) (w : ℤ) (i : ℕ)
    (hi : i < size.length) (hsz : getI size i ≤ w) :
    ∀ (d : ℕ) (rs), PackInv size w rs →
      PackInv size w (packItem size w i d rs) := by
  intro d
  induction d with
  | zero => intro rs h; exact h
  | succ m ih => intro rs h; exact ih _ (packStep_inv size w i hi hsz rs h)

/-- One packing pass adds exactly one unit to column `i` and nothing to the
other columns. -/
theorem colSum_packStep (size : List ℤ) (w : ℤ) (i j : ℕ)
    (hi : i < size.length) :
    ∀ rs, rs ≠ [] → (∀ r ∈ rs, r.length = size.length) →
      colSum (packStep size w i rs) j =
        colSum rs j + (if j = i then 1 else 0) := by
  intro rs hne hlen
  cases rs with
  | nil => exact absurd rfl hne
  | cons cur older =>
    by_cases hover : dotProd cur size + getI size i > w
    · simp only [packStep, if_pos hover, colSum, List.map_cons, List.sum_cons]
      rw [getI_incAt _ _ _ (by simp [zerosRow, hi]), getI_zerosRow]
      ring
    · simp only [packStep, if_neg hover, colSum, List.map_cons, List.sum_cons]
      rw [getI_incAt _ _ _ (by rw [hlen cur (by simp)]; exact hi)]
      ring

/-- The inner demand loop adds exactly `d` units to column `i` and nothing to
the other columns. -/
theorem colSum_packItem (size : List ℤ) (w : ℤ) (i j : ℕ)
    (hi : i < size.length) (hsz : getI size i ≤ w) :
    ∀ (d : ℕ) (rs), PackInv size w rs →
      colSum (packItem size w i d rs) j =
        colSum rs j + (if j = i then (d : ℤ) else 0) := by
  intro d
  induction d with
  | zero => intro rs _; simp [packItem]
  | succ m ih =>
    intro rs h
    have hstep := colSum_packStep size w i j hi rs h.1 h.2.1
    have hinv := packStep_inv size w i hi hsz rs h
    simp only [packItem]
    rw [ih _ hinv, hstep]
    rcases eq_or_ne j i with hj | hj
    · subst hj
      simp only [if_pos rfl]
      push_cast
      ring
    · simp [hj]

/-- The outer item loop preserves the roll-list invariant. -/
theorem foldl_pack_inv (size demand : List ℤ) (w : ℤ)
    (hsz : ∀ a ∈ size, a ≤ w) :
    ∀ (idxs : List ℕ) (rs), (∀ i ∈ idxs, i < size.length) → PackInv size w rs →
      PackInv size w (idxs.foldl
        (fun rs i => packItem size w i (getI demand i).toNat rs) rs) := by
  intro idxs
  induction idxs with
  | nil => intro rs _ h; exact h
  | cons i it ih =>
    intro rs his h
    have hi : i < size.length := his i (by simp)
    have hszi : getI size i ≤ w := hsz _ (getI_mem size i hi)
    simp only [List.foldl_cons]
    exact ih _ (fun a ha => his a (by simp [ha]))
      (packItem_inv size w i hi hszi _ rs h)

/-- Column sums after the outer item loop: each processed index contributes its
(truncated) demand to its own column. -/
theorem foldl_pack_colSum (size demand : List ℤ) (w : ℤ) (j : ℕ)
    (hsz : ∀ a ∈ size, a ≤ w) :
    ∀ (idxs : List ℕ) (rs), (∀ i ∈ idxs, i < size.length) → PackInv size w rs →
      colSum (idxs.foldl
          (fun rs i => packItem size w i (getI demand i).toNat rs) rs) j =
        colSum rs j +
          (idxs.map (fun i =>
            if j = i then ((getI demand i).toNat : ℤ) else 0)).sum := by
  intro idxs
  induction idxs with
  | nil => intro rs _ _; simp
  | cons i it ih =>
    intro rs his h
    have hi : i < size.length := his i (by simp)
    have hszi : getI size i ≤ w := hsz _ (getI_mem size i hi)
    simp only [List.foldl_cons, List.map_cons, List.sum_cons]
    rw [ih _ (fun a ha => his a (by simp [ha]))
        (packItem_inv size w i hi hszi _ rs h),
      colSum_packItem size w i j hi hszi _ rs h]
    ring

/-- Sum of a one-hot map over `List.range n` vanishes when the hot index is
out of range. -/
theorem sum_map_ite_zero (c : ℕ → ℤ) :
    ∀ (n j : ℕ), n ≤ j →
      ((List.range n).map (fun i => if j = i then c i else 0)).sum = 0 := by
  intro n
  induction n with
  | zero => intro j _; simp
  | succ m ih =>
    intro j hj
    rw [List.range_succ]
    simp only [List.map_append, List.sum_append, List.map_cons, List.sum_cons,
      List.map_nil, List.sum_nil]
    rw [ih j (by omega)]
    have hne : j ≠ m := by omega
    simp [hne]

/-- Sum of a one-hot map over `List.range n` picks out the hot index. -/
theorem sum_map_ite (c : ℕ → ℤ) :
    ∀ (n j : ℕ), j < n →
      ((List.range n).map (fun i => if j = i then c i else 0)).sum = c j := by
  intro n
  induction n with
  | zero => intro j hj; omega
  | succ m ih =>
    intro j hj
    rw [List.range_succ]
    simp only [List.map_append, List.sum_append, List.map_cons, List.sum_cons,
      List.map_nil, List.sum_nil]
    rcases Nat.lt_or_ge j m with h | h
    · rw [ih j h]
      have hne : j ≠ m := by omega
      simp [hne]
    · have hjm : j = m := by omega
      subst hjm
      rw [sum_map_ite_zero c j j (Nat.le_refl j)]
      simp

/-- Column sums are invariant under reversing the roll list. -/
theorem colSum_reverse (rows : List (List ℤ)) (j : ℕ) :
    colSum rows.reverse j = colSum rows j := by
  simp [colSum, List.map_reverse, List.sum_reverse]

/-! ## Theorems: claim C10 -/

/-- Claim C10 counterexample: the constructor accepts the instance
`roll_width 100, size [50], demand [-1]`, whose heuristic solution has column
sum 0 over its single roll rather than the demand −1; and it accepts
`roll_width -5, size [-5], demand [0]`, whose single heuristic roll has packed
size 0, exceeding the roll width −5.  The claim's universally quantified
packing property therefore fails on constructible instances. -/
theorem heuristic_packing_cex :
    cutStockProblemInit 100 [50] [-1] =
      Except.ok ⟨100, 1, [50], [-1], "max"⟩ ∧
    heuristicSolution [50] [-1] 100 = [[0]] ∧
    colSum [[0]] 0 = 0 ∧
    getI [-1] 0 = -1 ∧
    cutStockProblemInit (-5) [-5] [0] =
      Except.ok ⟨-5, 1, [-5], [0], "max"⟩ ∧
    heuristicSolution [-5] [0] (-5) = [[0]] ∧
    dotProd [0] [-5] = 0 ∧
    ¬ ((0 : ℤ) ≤ -5) := by
  refine ⟨rfl, by decide, by decide, rfl, rfl, by decide, rfl, by decide⟩

/-- Claim C10 as amended: for every instance with nonnegative roll width,
every size at most the roll width (the constructor asserts
`roll_width >= size.max()`) and nonnegative demands, the heuristic solution is
a feasible packing — every roll's packed size is at most the roll width and
the column sums equal the demand vector exactly — and `get_bins_upper_bound`
is its number of rolls. -/
theorem heuristic_packing_feasible (size demand : List ℤ) (w : ℤ)
    (hw : 0 ≤ w) (hsz : ∀ a ∈ size, a ≤ w) (hd : ∀ a ∈ demand, 0 ≤ a) :
    (∀ r ∈ heuristicSolution size demand w, dotProd r size ≤ w) ∧
    (∀ j, j < size.length →
      colSum (heuristicSolution size demand w) j = getI demand j) ∧
    binsUpperBound size demand w = (heuristicSolution size demand w).length := by
  have hinv0 : PackInv size w [zerosRow size.length] := by
    refine ⟨by simp, ?_, ?_⟩
    · intro r hr
      simp only [List.mem_singleton] at hr
      subst hr
      simp [zerosRow]
    · intro r hr
      simp only [List.mem_singleton] at hr
      subst hr
      rw [dotProd_zerosRow]
      exact hw
  have hrange : ∀ i ∈ List.range size.length, i < size.length := by
    intro i hi
    simpa using hi
  refine ⟨?_, ?_, rfl⟩
  · intro r hr
    simp only [heuristicSolution, List.mem_reverse] at hr
    exact (foldl_pack_inv size demand w hsz _ _ hrange hinv0).2.2 r hr
  · intro j hj
    simp only [heuristicSolution]
    rw [colSum_reverse,
      foldl_pack_colSum size demand w j hsz _ _ hrange hinv0]
    have hcol0 : colSum [zerosRow size.length] j = 0 := by
      simp [colSum, getI_zerosRow]
    rw [hcol0, sum_map_ite (fun i => ((getI demand i).toNat : ℤ)) size.length j hj,
      Int.toNat_of_nonneg (getI_nonneg demand j hd)]
    ring

/-- Claim C10 witness: the spec's Scenario A instance (roll width 100, sizes
`[50, 70]`, demands `[10, 5]`) satisfies the packing property. -/
theorem heuristic_packing_feasible_witness :
    (∀ r ∈ heuristicSolution [50, 70] [10, 5] 100, dotProd r [50, 70] ≤ 100) ∧
    (∀ j, j < ([50, 70] : List ℤ).length →
      colSum (heuristicSolution [50, 70] [10, 5] 100) j = getI [10, 5] j) ∧
    binsUpperBound [50, 70] [10, 5] 100 =
      (heuristicSolution [50, 70] [10, 5] 100).length :=
  heuristic_packing_feasible [50, 70] [10, 5] 100 (by decide) (by decide)
    (by decide)
